import Mathlib

/-!
Verification development for the opytimizer meta-heuristic framework
(`src/opytimizer/core/optimizer.py`, `src/opytimizer/optimizers/evolutionary/ep.py`,
`src/opytimizer/optimizers/science/es.py`).

Numeric values are modelled as rationals (exact arithmetic); randomness is
modelled by explicit oracle streams supplying the draws that the missing
`opytimizer/math/random.py` module would produce.
-/

namespace Opytimizer

/-- A position is an `n_variables × n_dimensions` matrix of numbers
(`Agent.position` in the data model). -/
abbrev Pos := List (List ℚ)

/-- Agent data model (spec section 3): position, per-variable bounds, fitness and
the timestamp of the last best-fitness improvement. -/
structure Agent where
  position : Pos
  lb : List ℚ
  ub : List ℚ
  fit : ℚ
  ts : ℤ
deriving Repr, DecidableEq

/-- Placeholder agent used only as the default of total list indexing. -/
def defaultAgent : Agent := ⟨[], [], [], 0, 0⟩

/-- Clip of one scalar to the interval `[lo, hi]` with `np.clip` semantics:
`min (max x lo) hi`. -/
def clipScalar (lo hi x : ℚ) : ℚ := min (max x lo) hi

/-- Modelled from the spec: `Agent.clip_by_bound` lives in the missing
`opytimizer/core/agent.py`; spec section 8 says any position component outside
`[lb_j, ub_j]` is pulled to the nearest bound. Each variable row `j` of the
position is clipped componentwise to `[lb j, ub j]`. -/
def Agent.clip_by_bound (a : Agent) : Agent :=
  let pos := List.zipWith (fun (p : ℚ × ℚ) (row : List ℚ) => row.map (clipScalar p.1 p.2))
    (a.lb.zip a.ub) a.position
  { a with position := pos }

/-- Space data model (spec section 3): the population, the best-agent record and
the global bounds. -/
structure Space where
  agents : List Agent
  best_agent : Agent
  lb : List ℚ
  ub : List ℚ
deriving Repr, DecidableEq

/-- Loop body of `Optimizer.evaluate` (optimizer.py lines 125-134): walks the
agent list; each agent gets `fit = f position`; whenever the freshly computed
fitness is strictly below the running best fitness, the best agent's position and
fitness are replaced by (deep copies of) the agent's, and `ts` is stamped with
the current time. Returns the updated agents and the final best agent. -/
def evaluateLoop (f : Pos → ℚ) (now : ℤ) : List Agent → Agent → List Agent × Agent
  | [], best => ([], best)
  | a :: rest, best =>
    let a2 : Agent := { a with fit := f a.position }
    let best2 : Agent :=
      if a2.fit < best.fit then
        { best with position := a2.position, fit := a2.fit, ts := now }
      else best
    let r := evaluateLoop f now rest best2
    (a2 :: r.1, r.2)

/-- `Optimizer.evaluate(space, function)` (optimizer.py lines 110-134). `now` is
the value `int(time.time())` would return during the call. -/
def Optimizer.evaluate (f : Pos → ℚ) (now : ℤ) (s : Space) : Space :=
  { s with agents := (evaluateLoop f now s.agents s.best_agent).1,
           best_agent := (evaluateLoop f now s.agents s.best_agent).2 }

lemma evaluateLoop_fst (f : Pos → ℚ) (now : ℤ) :
    ∀ (ags : List Agent) (best : Agent),
      (evaluateLoop f now ags best).1 = ags.map (fun a => { a with fit := f a.position })
  | [], _ => rfl
  | a :: rest, best => by
    simp only [evaluateLoop, List.map_cons, List.cons.injEq, true_and]
    exact evaluateLoop_fst f now rest _

lemma evaluateLoop_best_fit (f : Pos → ℚ) (now : ℤ) :
    ∀ (ags : List Agent) (best : Agent),
      (evaluateLoop f now ags best).2.fit =
        List.foldl min best.fit (ags.map (fun a => f a.position))
  | [], _ => rfl
  | a :: rest, best => by
    simp only [evaluateLoop, List.map_cons, List.foldl_cons]
    rw [evaluateLoop_best_fit f now rest]
    congr 1
    by_cases h : f a.position < best.fit
    · simp [h, min_def, le_of_lt h]
    · push_neg at h
      simp [if_neg (not_lt.mpr h), min_def, h]

lemma evaluateLoop_best_cases (f : Pos → ℚ) (now : ℤ) :
    ∀ (ags : List Agent) (best : Agent),
      (evaluateLoop f now ags best).2 = best ∨
        ∃ a ∈ ags, f a.position < best.fit ∧
          (evaluateLoop f now ags best).2 =
            { best with position := a.position, fit := f a.position, ts := now }
  | [], _ => Or.inl rfl
  | a :: rest, best => by
    simp only [evaluateLoop]
    by_cases h : f a.position < best.fit
    · right
      rcases evaluateLoop_best_cases f now rest
          { best with position := a.position, fit := f a.position, ts := now } with h1 | ⟨b, hb, hlt, he⟩
      · exact ⟨a, List.mem_cons_self a rest, h, by simp only [if_pos h]; exact h1⟩
      · exact ⟨b, List.mem_cons_of_mem a hb, lt_trans hlt h,
          by simp only [if_pos h]; exact he⟩
    · rcases evaluateLoop_best_cases f now rest best with h1 | ⟨b, hb, hlt, he⟩
      · exact Or.inl (by simp only [if_neg h]; exact h1)
      · exact Or.inr ⟨b, List.mem_cons_of_mem a hb, hlt,
          by simp only [if_neg h]; exact he⟩

lemma foldl_min_le_init (l : List ℚ) : ∀ b : ℚ, List.foldl min b l ≤ b := by
  induction l with
  | nil => intro b; simp
  | cons x xs ih =>
    intro b
    calc List.foldl min (min b x) xs ≤ min b x := ih (min b x)
    _ ≤ b := min_le_left b x

/-- Claim C1: `Optimizer.evaluate` sets each agent's `fit` to
`function(agent.position)` (leaving the rest of the agent unchanged); the best
agent is either left untouched, or is replaced — position/fitness copied from an
improving agent and `ts` stamped — exactly for an agent whose fresh fitness is
strictly below the best fitness it was compared against (hence below the entry
best fitness); and the final best fitness is the minimum of the previous best
fitness and all newly computed fitnesses. Deep-copy independence is implicit in
the value semantics of the embedding. -/
theorem C1_evaluate_fits_and_best_min (f : Pos → ℚ) (now : ℤ) (s : Space) :
    (Optimizer.evaluate f now s).agents =
        s.agents.map (fun a => { a with fit := f a.position }) ∧
    (Optimizer.evaluate f now s).best_agent.fit =
        List.foldl min s.best_agent.fit (s.agents.map (fun a => f a.position)) ∧
    ((Optimizer.evaluate f now s).best_agent = s.best_agent ∨
      ∃ a ∈ s.agents, f a.position < s.best_agent.fit ∧
        (Optimizer.evaluate f now s).best_agent =
          { s.best_agent with position := a.position, fit := f a.position, ts := now }) := by
  refine ⟨evaluateLoop_fst f now s.agents s.best_agent,
    evaluateLoop_best_fit f now s.agents s.best_agent,
    evaluateLoop_best_cases f now s.agents s.best_agent⟩

/-- One step of the per-iteration pipeline of the run loop (spec section 4.3):
an evaluation pass, a wholesale replacement of the population by an update, or a
clip of every agent to the bounds. Only the evaluation step touches
`best_agent`. -/
inductive PipelineStep where
  | eval (now : ℤ)
  | setAgents (ags : List Agent)
  | clip
deriving Repr

/-- Applies one pipeline step to the space. -/
def applyStep (f : Pos → ℚ) (s : Space) : PipelineStep → Space
  | .eval now => Optimizer.evaluate f now s
  | .setAgents ags => { s with agents := ags }
  | .clip => { s with agents := s.agents.map Agent.clip_by_bound }

/-- Runs a sequence of pipeline steps from a starting space. -/
def runSteps (f : Pos → ℚ) (s : Space) (steps : List PipelineStep) : Space :=
  steps.foldl (applyStep f) s

lemma evaluate_best_fit_le (f : Pos → ℚ) (now : ℤ) (s : Space) :
    (Optimizer.evaluate f now s).best_agent.fit ≤ s.best_agent.fit := by
  have h := evaluateLoop_best_fit f now s.agents s.best_agent
  simp only [Optimizer.evaluate]
  rw [h]
  exact foldl_min_le_init _ _

lemma runSteps_best_fit_le (f : Pos → ℚ) :
    ∀ (steps : List PipelineStep) (s : Space),
      (runSteps f s steps).best_agent.fit ≤ s.best_agent.fit
  | [], _ => le_refl _
  | st :: rest, s => by
    have h1 : (applyStep f s st).best_agent.fit ≤ s.best_agent.fit := by
      cases st with
      | eval now => exact evaluate_best_fit_le f now s
      | setAgents ags => exact le_refl _
      | clip => exact le_refl _
    calc (runSteps f (applyStep f s st) rest).best_agent.fit
        ≤ (applyStep f s st).best_agent.fit := runSteps_best_fit_le f rest _
    _ ≤ s.best_agent.fit := h1

/-- Claim C2: `best_agent.fit` never increases. Every single call to
`Optimizer.evaluate` leaves the best fitness less than or equal to its previous
value, and along any pipeline of evaluate / update / clip steps (hence across
every iteration of any run of length at least 1) the recorded best fitness after
more steps is less than or equal to the best fitness after fewer steps, so the
per-iteration sequence of best fitnesses is non-increasing. -/
theorem C2_best_fit_monotone :
    (∀ (f : Pos → ℚ) (now : ℤ) (s : Space),
        (Optimizer.evaluate f now s).best_agent.fit ≤ s.best_agent.fit) ∧
    (∀ (f : Pos → ℚ) (s : Space) (steps more : List PipelineStep),
        (runSteps f s (steps ++ more)).best_agent.fit ≤
          (runSteps f s steps).best_agent.fit) := by
  refine ⟨evaluate_best_fit_le, ?_⟩
  intro f s steps more
  rw [runSteps, List.foldl_append]
  exact runSteps_best_fit_le f more _

/-- Minimal model of the Python values flowing through the constructors and
through `build`; floats are modelled as exact rationals. -/
inductive PyVal where
  | none
  | bool (b : Bool)
  | int (n : ℤ)
  | float (q : ℚ)
  | str (s : String)
  | list (l : List PyVal)
  | dict (d : List (String × PyVal))
deriving Repr

/-- Error kinds raised by the modelled code paths: the first two mirror
`opytimizer.utils.exception.TypeError` and `ValueError`, `attributeError` is
Python's own error for resolving a missing attribute. -/
inductive PyError where
  | typeError
  | valueError
  | attributeError
deriving Repr, DecidableEq

/-- Python truthiness of the modelled values, as tested by `if params:`
(optimizer.py line 86). -/
def PyVal.truthy : PyVal → Bool
  | .none => false
  | .bool b => b
  | .int n => n != 0
  | .float q => q != 0
  | .str s => s ≠ ""
  | .list l => !l.isEmpty
  | .dict d => !d.isEmpty

/-- Whether the value is a Python mapping (`isinstance(params, dict)`,
optimizer.py line 73). -/
def PyVal.isDict : PyVal → Bool
  | .dict _ => true
  | _ => false

/-- Numeric view of a value, as accepted by `isinstance(v, (float, int))`
(ep.py line 62); Python booleans are instances of `int`. -/
def PyVal.asNum : PyVal → Option ℚ
  | .bool b => some (if b then 1 else 0)
  | .int n => some (n : ℚ)
  | .float q => some q
  | _ => Option.none

/-- Observable state of a generic `Optimizer` instance (optimizer.py lines
19-31): algorithm name, the saved `params` dictionary, the generic instance
attributes written by `build`, and the `built` flag. -/
structure OptimizerState where
  algorithm : String
  params : List (String × PyVal)
  attrs : List (String × PyVal)
  built : Bool
deriving Repr

/-- `Optimizer.__init__` (optimizer.py lines 19-31): empty params, not built. -/
def OptimizerState.init (algorithm : String) : OptimizerState :=
  ⟨algorithm, [], [], false⟩

/-- One `setattr(self, k, v)` on a generic attribute: the new binding shadows
any earlier one, so attribute reads see the most recent write first. -/
def setAttr (k : String) (v : PyVal) (attrs : List (String × PyVal)) :
    List (String × PyVal) :=
  (k, v) :: attrs

/-- Reads an instance attribute: the most recent write wins. -/
def getAttr (attrs : List (String × PyVal)) (k : String) : Option PyVal :=
  List.lookup k attrs

/-- One `setattr(self, k, v)` of the `build` loop (optimizer.py line 91) on a
generic `Optimizer` instance: the keys naming the class's properties run their
validating setters — `algorithm` requires a string (optimizer.py lines 41-46),
`built` a boolean (lines 56-61), `params` a dict (lines 71-76), each raising
`e.TypeError` otherwise and storing into the property slot — while any other
key becomes a plain instance attribute. -/
def OptimizerState.setPropAttr (o : OptimizerState) (k : String) (v : PyVal) :
    Except PyError OptimizerState :=
  if k = "algorithm" then
    match v with
    | .str s => .ok { o with algorithm := s }
    | _ => .error .typeError
  else if k = "built" then
    match v with
    | .bool b => .ok { o with built := b }
    | _ => .error .typeError
  else if k = "params" then
    match v with
    | .dict d => .ok { o with params := d }
    | _ => .error .typeError
  else .ok { o with attrs := setAttr k v o.attrs }

/-- The `for k, v in params.items(): setattr(self, k, v)` loop of `build`
(optimizer.py lines 90-91); a raising property setter aborts the loop and
propagates its error. -/
def OptimizerState.setPropAttrs (o : OptimizerState) :
    List (String × PyVal) → Except PyError OptimizerState
  | [] => .ok o
  | p :: rest =>
    match o.setPropAttr p.1 p.2 with
    | .error e => .error e
    | .ok o2 => o2.setPropAttrs rest

/-- `Optimizer.build(params)` (optimizer.py lines 78-98): when `params` is
truthy it is stored through the `params` property setter — which raises
`TypeError` unless it is a dict — and each key-value pair is attached via
`setattr`, routed through the property setters where applicable; a falsy
`params` (such as `None`, `0`, `[]` or `{}`) skips that block entirely; when
nothing raised, `built` is finally set to `True`. -/
def OptimizerState.build (o : OptimizerState) (params : PyVal) :
    Except PyError OptimizerState :=
  if params.truthy then
    match params with
    | .dict d =>
      match OptimizerState.setPropAttrs { o with params := d } d with
      | .error e => .error e
      | .ok o2 => .ok { o2 with built := true }
    | _ => .error .typeError
  else
    .ok { o with built := true }

/-- Whether the `Optimizer` property setters reject the pair: a property key
with a value of the wrong type. -/
def propSetterRejects (k : String) (v : PyVal) : Bool :=
  if k = "algorithm" then
    match v with
    | .str _ => false
    | _ => true
  else if k = "built" then
    match v with
    | .bool _ => false
    | _ => true
  else if k = "params" then
    match v with
    | .dict _ => false
    | _ => true
  else false

lemma lookup_cons_ne (k : String) (x : String × PyVal) (l : List (String × PyVal))
    (h : k ≠ x.1) : List.lookup k (x :: l) = List.lookup k l := by
  cases x with
  | mk a b => simp only [List.lookup]; rw [beq_eq_false_iff_ne.mpr h]

lemma setPropAttr_error_of_rejects (o : OptimizerState) (k : String) (v : PyVal)
    (h : propSetterRejects k v = true) : o.setPropAttr k v = .error .typeError := by
  unfold OptimizerState.setPropAttr
  unfold propSetterRejects at h
  by_cases h1 : k = "algorithm"
  · rw [if_pos h1] at h ⊢
    cases v <;> simp_all
  · rw [if_neg h1] at h ⊢
    by_cases h2 : k = "built"
    · rw [if_pos h2] at h ⊢
      cases v <;> simp_all
    · rw [if_neg h2] at h ⊢
      by_cases h3 : k = "params"
      · rw [if_pos h3] at h ⊢
        cases v <;> simp_all
      · rw [if_neg h3] at h ⊢
        exact absurd h (by simp)

lemma setPropAttr_ok_of_accepts (o : OptimizerState) (k : String) (v : PyVal)
    (h : propSetterRejects k v = false) : ∃ o2, o.setPropAttr k v = .ok o2 := by
  unfold OptimizerState.setPropAttr
  unfold propSetterRejects at h
  by_cases h1 : k = "algorithm"
  · rw [if_pos h1] at h ⊢
    cases v <;> simp_all
  · rw [if_neg h1] at h ⊢
    by_cases h2 : k = "built"
    · rw [if_pos h2] at h ⊢
      cases v <;> simp_all
    · rw [if_neg h2] at h ⊢
      by_cases h3 : k = "params"
      · rw [if_pos h3] at h ⊢
        cases v <;> simp_all
      · rw [if_neg h3] at h ⊢
        exact ⟨_, rfl⟩

lemma setPropAttr_generic (o : OptimizerState) (k : String) (v : PyVal)
    (h1 : k ≠ "algorithm") (h2 : k ≠ "built") (h3 : k ≠ "params") :
    o.setPropAttr k v = .ok { o with attrs := (k, v) :: o.attrs } := by
  unfold OptimizerState.setPropAttr
  rw [if_neg h1, if_neg h2, if_neg h3]
  rfl

lemma setPropAttr_ok_attrs (o o2 : OptimizerState) (k : String) (v : PyVal)
    (h : o.setPropAttr k v = .ok o2) :
    o2.attrs = o.attrs ∨ o2.attrs = (k, v) :: o.attrs := by
  unfold OptimizerState.setPropAttr at h
  by_cases h1 : k = "algorithm"
  · rw [if_pos h1] at h
    cases v <;> simp_all
    left
    rw [← h]
  · rw [if_neg h1] at h
    by_cases h2 : k = "built"
    · rw [if_pos h2] at h
      cases v <;> simp_all
      left
      rw [← h]
    · rw [if_neg h2] at h
      by_cases h3 : k = "params"
      · rw [if_pos h3] at h
        cases v <;> simp_all
        left
        rw [← h]
      · rw [if_neg h3] at h
        cases h with
        | refl => right; rfl

lemma setPropAttr_ok_algorithm (o o2 : OptimizerState) (k : String) (v : PyVal)
    (h : o.setPropAttr k v = .ok o2) (hk : k ≠ "algorithm") :
    o2.algorithm = o.algorithm := by
  unfold OptimizerState.setPropAttr at h
  rw [if_neg hk] at h
  by_cases h2 : k = "built"
  · rw [if_pos h2] at h
    cases v <;> simp_all
    rw [← h]
  · rw [if_neg h2] at h
    by_cases h3 : k = "params"
    · rw [if_pos h3] at h
      cases v <;> simp_all
      rw [← h]
    · rw [if_neg h3] at h
      cases h with
      | refl => rfl

lemma setPropAttrs_error_of_rejected_pair :
    ∀ (d : List (String × PyVal)) (o : OptimizerState),
      (∃ kv ∈ d, propSetterRejects kv.1 kv.2 = true) →
      o.setPropAttrs d = .error .typeError := by
  intro d
  induction d with
  | nil =>
    rintro o ⟨kv, hkv, _⟩
    exact absurd hkv (List.not_mem_nil kv)
  | cons x rest ih =>
    rintro o ⟨kv, hkv, hbad⟩
    unfold OptimizerState.setPropAttrs
    by_cases hx : propSetterRejects x.1 x.2 = true
    · rw [setPropAttr_error_of_rejects o x.1 x.2 hx]
    · have hxf : propSetterRejects x.1 x.2 = false := by
        revert hx
        cases propSetterRejects x.1 x.2 <;> simp
      rcases List.mem_cons.mp hkv with rfl | h2
      · exact absurd hbad hx
      · obtain ⟨o1, ho1⟩ := setPropAttr_ok_of_accepts o x.1 x.2 hxf
        rw [ho1]
        exact ih o1 ⟨kv, h2, hbad⟩

lemma setPropAttrs_ok_of_all_accepted :
    ∀ (d : List (String × PyVal)) (o : OptimizerState),
      (∀ kv ∈ d, propSetterRejects kv.1 kv.2 = false) →
      ∃ o2, o.setPropAttrs d = .ok o2 := by
  intro d
  induction d with
  | nil => intro o _; exact ⟨o, rfl⟩
  | cons x rest ih =>
    intro o hall
    obtain ⟨o1, ho1⟩ := setPropAttr_ok_of_accepts o x.1 x.2
      (hall x (List.mem_cons_self x rest))
    obtain ⟨o2, ho2⟩ := ih o1 (fun kv hkv => hall kv (List.mem_cons_of_mem x hkv))
    refine ⟨o2, ?_⟩
    unfold OptimizerState.setPropAttrs
    rw [ho1]
    exact ho2

lemma setPropAttrs_lookup_preserved :
    ∀ (xs : List (String × PyVal)) (o o2 : OptimizerState),
      o.setPropAttrs xs = .ok o2 → ∀ k, k ∉ xs.map Prod.fst →
        getAttr o2.attrs k = getAttr o.attrs k := by
  intro xs
  induction xs with
  | nil =>
    intro o o2 h k _
    cases h with
    | refl => rfl
  | cons x rest ih =>
    intro o o2 h k hk
    simp only [List.map_cons, List.mem_cons, not_or] at hk
    unfold OptimizerState.setPropAttrs at h
    cases hstep : o.setPropAttr x.1 x.2 with
    | error e => rw [hstep] at h; exact absurd h (by simp)
    | ok o1 =>
      rw [hstep] at h
      rw [ih o1 o2 h k hk.2]
      rcases setPropAttr_ok_attrs o o1 x.1 x.2 hstep with ha | ha
      · rw [ha]
      · rw [ha]
        unfold getAttr
        exact lookup_cons_ne k (x.1, x.2) o.attrs hk.1

lemma setPropAttrs_algorithm_preserved :
    ∀ (xs : List (String × PyVal)) (o o2 : OptimizerState),
      o.setPropAttrs xs = .ok o2 → "algorithm" ∉ xs.map Prod.fst →
        o2.algorithm = o.algorithm := by
  intro xs
  induction xs with
  | nil =>
    intro o o2 h _
    cases h with
    | refl => rfl
  | cons x rest ih =>
    intro o o2 h hk
    simp only [List.map_cons, List.mem_cons, not_or] at hk
    unfold OptimizerState.setPropAttrs at h
    cases hstep : o.setPropAttr x.1 x.2 with
    | error e => rw [hstep] at h; exact absurd h (by simp)
    | ok o1 =>
      rw [hstep] at h
      rw [ih o1 o2 h hk.2]
      exact setPropAttr_ok_algorithm o o1 x.1 x.2 hstep (fun he => hk.1 he.symm)

lemma setPropAttrs_generic_attached :
    ∀ (d : List (String × PyVal)) (o o2 : OptimizerState),
      o.setPropAttrs d = .ok o2 → (d.map Prod.fst).Nodup →
      ∀ kv ∈ d, kv.1 ≠ "algorithm" → kv.1 ≠ "built" → kv.1 ≠ "params" →
        getAttr o2.attrs kv.1 = some kv.2 := by
  intro d
  induction d with
  | nil =>
    intro o o2 _ _ kv hkv
    exact absurd hkv (List.not_mem_nil kv)
  | cons x rest ih =>
    intro o o2 h hnd kv hkv h1 h2 h3
    simp only [List.map_cons, List.nodup_cons] at hnd
    unfold OptimizerState.setPropAttrs at h
    cases hstep : o.setPropAttr x.1 x.2 with
    | error e => rw [hstep] at h; exact absurd h (by simp)
    | ok o1 =>
      rw [hstep] at h
      rcases List.mem_cons.mp hkv with rfl | hkv2
      · have hg := setPropAttr_generic o kv.1 kv.2 h1 h2 h3
        have ho1 : o1 = { o with attrs := (kv.1, kv.2) :: o.attrs } :=
          (Except.ok.inj (hstep.symm.trans hg))
        rw [setPropAttrs_lookup_preserved rest o1 o2 h kv.1 hnd.1, ho1]
        unfold getAttr
        cases kv with
        | mk a b => simp [List.lookup]
      · exact ih o1 o2 h hnd.2 kv hkv2 h1 h2 h3

lemma setPropAttrs_algorithm_applied :
    ∀ (d : List (String × PyVal)) (o o2 : OptimizerState),
      o.setPropAttrs d = .ok o2 → (d.map Prod.fst).Nodup →
      ∀ s, ("algorithm", PyVal.str s) ∈ d → o2.algorithm = s := by
  intro d
  induction d with
  | nil =>
    intro o o2 _ _ s hs
    exact absurd hs (List.not_mem_nil _)
  | cons x rest ih =>
    intro o o2 h hnd s hs
    simp only [List.map_cons, List.nodup_cons] at hnd
    unfold OptimizerState.setPropAttrs at h
    cases hstep : o.setPropAttr x.1 x.2 with
    | error e => rw [hstep] at h; exact absurd h (by simp)
    | ok o1 =>
      rw [hstep] at h
      rcases List.mem_cons.mp hs with rfl | hs2
      · have hset : o.setPropAttr "algorithm" (PyVal.str s) =
            .ok { o with algorithm := s } := by
          unfold OptimizerState.setPropAttr
          rw [if_pos rfl]
        have ho1 : o1 = { o with algorithm := s } :=
          (Except.ok.inj (hstep.symm.trans hset))
        rw [setPropAttrs_algorithm_preserved rest o1 o2 h hnd.1, ho1]
      · exact ih o1 o2 h hnd.2 s hs2

/-- Claim C5 counterexample, in both directions: `[]` is not a mapping yet
`build([])` raises nothing — `if params:` tests truthiness, so the dict check
is skipped and the optimizer is marked built — while `{"built": "x"}` IS a
mapping yet `build` raises `TypeError` out of the `built` property setter
instead of attaching the pair and succeeding. -/
theorem C5_counterexample_build_truthiness_and_setters :
    ((PyVal.list []).isDict = false ∧
      (OptimizerState.init "Optimizer").build (PyVal.list []) =
        .ok { OptimizerState.init "Optimizer" with built := true }) ∧
    ((PyVal.dict [("built", PyVal.str "x")]).isDict = true ∧
      (OptimizerState.init "Optimizer").build (PyVal.dict [("built", PyVal.str "x")]) =
        .error .typeError) :=
  ⟨⟨rfl, rfl⟩, ⟨rfl, rfl⟩⟩

/-- Claim C5, amended: `build(params)` raises `TypeError` for every truthy
non-mapping argument; every falsy argument (None, zero, empty string, empty
list, empty dict) skips the parameter block and only sets `built`; a truthy
dict is saved as `params` and its pairs are applied in order through
`setattr`, where the keys naming the `Optimizer` properties run their
validating setters — so a dict holding a property key with a wrongly typed
value raises `TypeError` — and when every pair is accepted, each generic pair
is readable as an instance attribute, each accepted property pair has updated
its property (shown for `algorithm`), and `built` is finally set. -/
theorem C5_build_validates_truthy_params (o : OptimizerState) (p : PyVal) :
    (p.truthy = true → p.isDict = false → o.build p = .error .typeError) ∧
    (p.truthy = false → o.build p = .ok { o with built := true }) ∧
    (∀ d, p = .dict d → (∃ kv ∈ d, propSetterRejects kv.1 kv.2 = true) →
      o.build p = .error .typeError) ∧
    (∀ d, p = .dict d → (∀ kv ∈ d, propSetterRejects kv.1 kv.2 = false) →
      (d.map Prod.fst).Nodup →
      ∃ o2, o.build p = .ok o2 ∧ o2.built = true ∧
        (∀ kv ∈ d, kv.1 ≠ "algorithm" → kv.1 ≠ "built" → kv.1 ≠ "params" →
          getAttr o2.attrs kv.1 = some kv.2) ∧
        (∀ s, ("algorithm", PyVal.str s) ∈ d → o2.algorithm = s)) := by
  refine ⟨?_, ?_, ?_, ?_⟩
  · intro ht hd
    cases p <;> simp_all [OptimizerState.build, PyVal.isDict]
  · intro ht
    simp [OptimizerState.build, ht]
  · rintro d rfl ⟨kv, hkv, hbad⟩
    have htr : (PyVal.dict d).truthy = true := by
      cases d with
      | nil => exact absurd hkv (List.not_mem_nil kv)
      | cons x rest => rfl
    unfold OptimizerState.build
    rw [if_pos htr]
    dsimp only
    rw [setPropAttrs_error_of_rejected_pair d _ ⟨kv, hkv, hbad⟩]
  · rintro d rfl hall hnd
    by_cases hemp : d.isEmpty
    · refine ⟨{ o with built := true }, ?_, rfl, ?_, ?_⟩
      · simp [OptimizerState.build, PyVal.truthy, hemp]
      · intro kv hkv
        rw [List.isEmpty_iff] at hemp
        subst hemp
        exact absurd hkv (List.not_mem_nil kv)
      · intro s hs
        rw [List.isEmpty_iff] at hemp
        subst hemp
        exact absurd hs (List.not_mem_nil _)
    · obtain ⟨o2, ho2⟩ := setPropAttrs_ok_of_all_accepted d { o with params := d } hall
      refine ⟨{ o2 with built := true }, ?_, rfl, ?_, ?_⟩
      · unfold OptimizerState.build
        rw [if_pos (by simp [PyVal.truthy, hemp])]
        dsimp only
        rw [ho2]
      · intro kv hkv h1 h2 h3
        exact setPropAttrs_generic_attached d _ o2 ho2 hnd kv hkv h1 h2 h3
      · intro s hs
        exact setPropAttrs_algorithm_applied d _ o2 ho2 hnd s hs

/-- Witness for C5's amended theorem: a truthy non-dict (`"x"`) is rejected
with `TypeError`, a falsy value (`None`) only sets `built`, the mapping
`{"built": "x"}` is rejected through the `built` property setter, and the
all-accepted mapping `{"w": 3, "algorithm": "Custom"}` succeeds with the
generic pair attached and the property applied. -/
theorem C5_build_validates_truthy_params_witness :
    (OptimizerState.init "Optimizer").build (PyVal.str "x") = .error .typeError ∧
    (OptimizerState.init "Optimizer").build PyVal.none =
      .ok { OptimizerState.init "Optimizer" with built := true } ∧
    (OptimizerState.init "Optimizer").build (PyVal.dict [("built", PyVal.str "x")]) =
      .error .typeError ∧
    ∃ o2, (OptimizerState.init "Optimizer").build
        (PyVal.dict [("w", PyVal.int 3), ("algorithm", PyVal.str "Custom")]) = .ok o2 ∧
      o2.built = true ∧
      (∀ kv ∈ [("w", PyVal.int 3), ("algorithm", PyVal.str "Custom")],
        kv.1 ≠ "algorithm" → kv.1 ≠ "built" → kv.1 ≠ "params" →
          getAttr o2.attrs kv.1 = some kv.2) ∧
      (∀ s, ("algorithm", PyVal.str s) ∈
          [("w", PyVal.int 3), ("algorithm", PyVal.str "Custom")] → o2.algorithm = s) := by
  refine ⟨?_, ?_, ?_, ?_⟩
  · exact (C5_build_validates_truthy_params (OptimizerState.init "Optimizer")
      (PyVal.str "x")).1 (by decide) rfl
  · exact (C5_build_validates_truthy_params (OptimizerState.init "Optimizer")
      PyVal.none).2.1 rfl
  · exact (C5_build_validates_truthy_params (OptimizerState.init "Optimizer")
      (PyVal.dict [("built", PyVal.str "x")])).2.2.1 _ rfl
      ⟨("built", PyVal.str "x"), List.mem_cons_self _ _, by decide⟩
  · exact (C5_build_validates_truthy_params (OptimizerState.init "Optimizer")
      (PyVal.dict [("w", PyVal.int 3), ("algorithm", PyVal.str "Custom")])).2.2.2 _ rfl
      (by intro kv hkv; rcases List.mem_cons.mp hkv with rfl | hkv2;
          · decide
          · rcases List.mem_cons.mp hkv2 with rfl | hkv3;
            · decide
            · exact absurd hkv3 (List.not_mem_nil kv))
      (by decide)

/-- Observable state of an `EP` instance (ep.py lines 30-84): the generic
optimizer state plus the two validated hyperparameters. -/
structure EPState where
  base : OptimizerState
  bout_size : ℚ
  clip_ratio : ℚ
deriving Repr

/-- The `bout_size` property setter (ep.py lines 60-67): `TypeError` unless the
value is a float or an int (booleans included, being Python ints), `ValueError`
when it lies outside `[0, 1]`. -/
def EPState.set_bout_size (ep : EPState) (v : PyVal) : Except PyError EPState :=
  match v.asNum with
  | Option.none => .error .typeError
  | Option.some q =>
    if q < 0 ∨ q > 1 then .error .valueError else .ok { ep with bout_size := q }

/-- The `clip_ratio` property setter (ep.py lines 77-84), same validation shape
as `bout_size`. -/
def EPState.set_clip_ratio (ep : EPState) (v : PyVal) : Except PyError EPState :=
  match v.asNum with
  | Option.none => .error .typeError
  | Option.some q =>
    if q < 0 ∨ q > 1 then .error .valueError else .ok { ep with clip_ratio := q }

/-- One `setattr(self, k, v)` of the `build` loop (optimizer.py line 91) on an
EP instance: the keys naming EP's own properties run the ep.py setters, the
keys naming the inherited `Optimizer` properties run the optimizer.py setters,
and any other key becomes a generic instance attribute. -/
def EPState.setParamAttr (ep : EPState) (k : String) (v : PyVal) :
    Except PyError EPState :=
  if k = "bout_size" then ep.set_bout_size v
  else if k = "clip_ratio" then ep.set_clip_ratio v
  else
    match ep.base.setPropAttr k v with
    | .error e => .error e
    | .ok b2 => .ok { ep with base := b2 }

/-- The `for k, v in params.items(): setattr(self, k, v)` loop of `build`
(optimizer.py lines 90-91) on an EP instance; a raising setter aborts the
loop and propagates its error. -/
def EPState.setParamAttrs (ep : EPState) : List (String × PyVal) → Except PyError EPState
  | [] => .ok ep
  | p :: rest =>
    match ep.setParamAttr p.1 p.2 with
    | .error e => .error e
    | .ok ep2 => ep2.setParamAttrs rest

/-- `build(params)` as run on an EP instance (optimizer.py lines 78-98 with the
property setters of ep.py resolving the `setattr` calls). -/
def EPState.build (ep : EPState) (params : PyVal) : Except PyError EPState :=
  if params.truthy then
    match params with
    | .dict d =>
      match EPState.setParamAttrs { ep with base := { ep.base with params := d } } d with
      | .error e => .error e
      | .ok ep3 => .ok { ep3 with base := { ep3.base with built := true } }
    | _ => .error .typeError
  else
    .ok { ep with base := { ep.base with built := true } }

/-- `EP.__init__(params)` (ep.py lines 30-50): the defaults `bout_size = 0.1`
and `clip_ratio = 0.05` are assigned through their setters (both pass
validation), then `build(params)` runs. -/
def EP.new (params : PyVal) : Except PyError EPState :=
  EPState.build ⟨OptimizerState.init "EP", 1/10, 1/20⟩ params

/-- The bout-size range invariant preserved by each `setattr` of the build
loop. -/
def boutSizeInv (ep : EPState) : Prop := 0 ≤ ep.bout_size ∧ ep.bout_size ≤ 1

lemma setParamAttr_preserves_inv (ep ep2 : EPState) (k : String) (v : PyVal)
    (hinv : boutSizeInv ep) (h : ep.setParamAttr k v = .ok ep2) : boutSizeInv ep2 := by
  unfold EPState.setParamAttr at h
  by_cases hk : k = "bout_size"
  · rw [if_pos hk] at h
    unfold EPState.set_bout_size at h
    cases hn : v.asNum with
    | none => rw [hn] at h; exact absurd h (by simp)
    | some q =>
      rw [hn] at h
      dsimp only at h
      by_cases hr : q < 0 ∨ q > 1
      · rw [if_pos hr] at h; exact absurd h (by simp)
      · rw [if_neg hr] at h
        push_neg at hr
        cases h with
        | refl => exact ⟨hr.1, hr.2⟩
  · rw [if_neg hk] at h
    by_cases hk2 : k = "clip_ratio"
    · rw [if_pos hk2] at h
      unfold EPState.set_clip_ratio at h
      cases hn : v.asNum with
      | none => rw [hn] at h; exact absurd h (by simp)
      | some q =>
        rw [hn] at h
        dsimp only at h
        by_cases hr : q < 0 ∨ q > 1
        · rw [if_pos hr] at h; exact absurd h (by simp)
        · rw [if_neg hr] at h
          cases h with
          | refl => exact hinv
    · rw [if_neg hk2] at h
      cases hsp : ep.base.setPropAttr k v with
      | error e => rw [hsp] at h; exact absurd h (by simp)
      | ok b2 =>
        rw [hsp] at h
        cases h with
        | refl => exact hinv

lemma setParamAttrs_preserves_inv (d : List (String × PyVal)) :
    ∀ (ep ep2 : EPState), boutSizeInv ep →
      ep.setParamAttrs d = .ok ep2 → boutSizeInv ep2 := by
  induction d with
  | nil =>
    intro ep ep2 hinv h
    cases h with
    | refl => exact hinv
  | cons x xs ih =>
    intro ep ep2 hinv h
    unfold EPState.setParamAttrs at h
    cases hstep : ep.setParamAttr x.1 x.2 with
    | error e => rw [hstep] at h; exact absurd h (by simp)
    | ok epm =>
      rw [hstep] at h
      exact ih epm ep2 (setParamAttr_preserves_inv ep epm x.1 x.2 hinv hstep) h

/-- Claim C8: the `bout_size` setter raises `TypeError` on every non-numeric
value, raises `ValueError` on every numeric value outside `[0, 1]`, and on
success stores exactly the given in-range value; consequently every
successfully constructed EP instance — default construction or construction
through `build` params — has `bout_size ∈ [0, 1]`. -/
theorem C8_bout_size_validated (ep : EPState) (v : PyVal) :
    (v.asNum = Option.none → ep.set_bout_size v = .error .typeError) ∧
    (∀ q, v.asNum = Option.some q → (q < 0 ∨ 1 < q) →
      ep.set_bout_size v = .error .valueError) ∧
    (∀ q, v.asNum = Option.some q → 0 ≤ q → q ≤ 1 →
      ep.set_bout_size v = .ok { ep with bout_size := q }) ∧
    (∀ p ep2, EP.new p = .ok ep2 → 0 ≤ ep2.bout_size ∧ ep2.bout_size ≤ 1) := by
  refine ⟨?_, ?_, ?_, ?_⟩
  · intro h; unfold EPState.set_bout_size; rw [h]
  · intro q hq hr
    unfold EPState.set_bout_size
    rw [hq]
    exact if_pos (by rcases hr with h | h; exact Or.inl h; exact Or.inr h)
  · intro q hq h0 h1
    unfold EPState.set_bout_size
    rw [hq]
    exact if_neg (by push_neg; exact ⟨h0, h1⟩)
  · intro p ep2 h
    unfold EP.new EPState.build at h
    have hinv0 : boutSizeInv ⟨OptimizerState.init "EP", 1/10, 1/20⟩ := by
      constructor <;> norm_num
    by_cases ht : p.truthy
    · rw [if_pos ht] at h
      cases p with
      | dict d =>
        dsimp only at h
        cases hf : EPState.setParamAttrs
            ({ base := { OptimizerState.init "EP" with params := d }, bout_size := 1/10, clip_ratio := 1/20 } : EPState) d with
        | error e => rw [hf] at h; exact absurd h (by simp)
        | ok ep3 =>
          rw [hf] at h
          have hinv3 : boutSizeInv ep3 :=
            setParamAttrs_preserves_inv d _ ep3 (by constructor <;> norm_num) hf
          simp only [Except.ok.injEq] at h
          subst h
          exact hinv3
      | none => exact absurd h (by simp)
      | bool b => exact absurd h (by simp)
      | int n => exact absurd h (by simp)
      | float q => exact absurd h (by simp)
      | str s => exact absurd h (by simp)
      | list l => exact absurd h (by simp)
    · rw [if_neg ht] at h
      simp only [Except.ok.injEq] at h
      subst h
      exact hinv0

/-- Witness for C8: `bout_size = 1.5` is rejected with `ValueError`,
`bout_size = "x"` with `TypeError`, and default EP construction with no params
yields `bout_size = 0.1 ∈ [0, 1]`. -/
theorem C8_bout_size_validated_witness :
    EPState.set_bout_size ⟨OptimizerState.init "EP", 1/10, 1/20⟩ (PyVal.float (3/2)) =
      .error .valueError ∧
    EPState.set_bout_size ⟨OptimizerState.init "EP", 1/10, 1/20⟩ (PyVal.str "x") =
      .error .typeError ∧
    ∀ ep2, EP.new PyVal.none = .ok ep2 → 0 ≤ ep2.bout_size ∧ ep2.bout_size ≤ 1 := by
  refine ⟨?_, ?_, ?_⟩
  · exact (C8_bout_size_validated ⟨OptimizerState.init "EP", 1/10, 1/20⟩
      (PyVal.float (3/2))).2.1 (3/2) rfl (by norm_num)
  · exact (C8_bout_size_validated ⟨OptimizerState.init "EP", 1/10, 1/20⟩
      (PyVal.str "x")).1 rfl
  · intro ep2 h
    exact (C8_bout_size_validated ⟨OptimizerState.init "EP", 1/10, 1/20⟩
      PyVal.none).2.2.2 PyVal.none ep2 h

/-- Number of parameters that `Optimizer.__init__` accepts besides `self`
(optimizer.py line 19: `def __init__(self)`). -/
def optimizerInitArity : ℕ := 0

/-- Attribute names that `Optimizer` instances expose: the properties and
methods defined by the class body of optimizer.py. There is no `_build`, no
`_evaluate` and no `_update` among them. -/
def optimizerAttributeNames : List String :=
  ["algorithm", "built", "params", "build", "compile", "evaluate", "update"]

/-- Attribute names that `EP` instances expose: the class members of ep.py
together with those inherited from `Optimizer`. -/
def epAttributeNames : List String :=
  ["bout_size", "clip_ratio", "_mutate_parent", "_update_strategy", "update", "run"] ++
    optimizerAttributeNames

/-- `ES.__init__` (es.py lines 31-48): `super(ES, self).__init__(algorithm)`
passes one positional argument to `Optimizer.__init__`, which accepts none
besides `self`, so the call raises `TypeError`; were that guard to pass, the
next statement `self._build(hyperparams)` would resolve `_build`, which exists
nowhere on `Optimizer`, and raise `AttributeError`. Neither branch can produce
an instance. -/
def ES.new (_algorithm : String) (_hyperparams : PyVal) : Except PyError OptimizerState :=
  if 1 ≤ optimizerInitArity then
    if "_build" ∈ optimizerAttributeNames then
      .ok (OptimizerState.init "ES")
    else .error .attributeError
  else .error .typeError

/-- Claim C9 concerns the equivalence of the `hyperparams` (ES) and `params`
(EP) constructor conventions. The code breaks it: every ES construction raises
`TypeError` — `Optimizer.__init__` takes no argument and `_build` does not
exist — while EP construction with the same absent parameter mapping succeeds
and yields a built optimizer. -/
theorem C9_es_constructor_always_fails :
    (∀ (alg : String) (h : PyVal), ES.new alg h = .error .typeError) ∧
    (∃ ep, EP.new PyVal.none = .ok ep ∧ ep.base.built = true) ∧
    "_build" ∉ optimizerAttributeNames := by
  refine ⟨fun alg h => rfl, ⟨⟨⟨"EP", [], [], true⟩, 1/10, 1/20⟩, rfl, rfl⟩, by decide⟩

/-- `EP.run` (ep.py lines 200-256) modelled up to its first attribute
resolution: after initializing the strategy array it executes
`self._evaluate(space, function, hook=pre_evaluate)` (line 226), and later
`self._update(...)` (line 238); `_evaluate` exists neither on `EP` nor on
`Optimizer`, so the very first pipeline statement raises `AttributeError` —
before the initial evaluation, before the `History` object is created and
before any iteration runs. The spaces list stands for the history snapshots the
intended pipeline would have produced. -/
def EP.run (_space : Space) (_f : Pos → ℚ) : Except PyError (List Space) :=
  if "_evaluate" ∈ epAttributeNames then .ok [] else .error .attributeError

/-- Claim C6 describes the completed-run pipeline with `n_iterations` history
entries. The code cannot complete a run: `run` resolves `self._evaluate` (and
would next resolve `self._update`), names defined neither by `EP` nor by
`Optimizer` — whose evaluation and update methods are called `evaluate` and
`update` — so every call raises `AttributeError` at its first pipeline
statement and no `History` is ever produced. -/
theorem C6_run_raises_attribute_error :
    (∀ (space : Space) (f : Pos → ℚ), EP.run space f = .error .attributeError) ∧
    "_evaluate" ∉ epAttributeNames ∧ "_update" ∉ epAttributeNames := by
  refine ⟨fun space f => rfl, by decide, by decide⟩

/-- Matrix of per-variable, per-dimension numbers: the shape of one agent's
position and of one agent's strategy slice. -/
abbrev Mat := List (List ℚ)

/-- `EP._mutate_parent(agent, function, strategy)` (ep.py lines 86-114): deep
copy of the parent, then `a.position += strategy * r1` — `r1` being the single
scalar returned by `r.generate_gaussian_random_number()` and broadcast over the
whole strategy matrix — then `a.clip_by_bound()`, then `a.fit = function(a.position)`.
`r1` is the oracle value standing for the Gaussian draw. -/
def EP.mutate_parent (f : Pos → ℚ) (agent : Agent) (strategy : Mat) (r1 : ℚ) : Agent :=
  let movedPos := List.zipWith (fun row srow => List.zipWith (fun p s => p + s * r1) row srow)
    agent.position strategy
  let clipped := Agent.clip_by_bound { agent with position := movedPos }
  { clipped with fit := f clipped.position }

/-- The `for j, (lb, ub) in enumerate(zip(lower_bound, upper_bound))` loop of
`_update_strategy` (ep.py lines 139-141): row `j` is clipped to `[lb j, ub j]`
and scaled by `clip_ratio`; rows beyond the bound lists are left as they are,
exactly as the Python loop leaves them. -/
def clipScaleRows (cr : ℚ) : List (ℚ × ℚ) → List (List ℚ) → List (List ℚ)
  | _, [] => []
  | [], rows => rows
  | p :: ps, row :: rows =>
    row.map (fun x => clipScalar p.1 p.2 x * cr) :: clipScaleRows cr ps rows

/-- `EP._update_strategy(strategy, lower_bound, upper_bound)` (ep.py lines
116-143): `new_strategy = strategy + r1m * sqrt(|strategy|)` with a per-element
Gaussian draw matrix `r1m`, then the per-variable clip-and-scale loop. The
elementwise map `x ↦ sqrt |x|` leaves the rationals, so it is abstracted as the
function argument `sqrtAbs`. -/
def EP.update_strategy (clip_ratio : ℚ) (sqrtAbs : ℚ → ℚ) (strategy : Mat)
    (lb ub : List ℚ) (r1m : Mat) : Mat :=
  let ns := List.zipWith (fun row rrow => List.zipWith (fun s r => s + r * sqrtAbs s) row rrow)
    strategy r1m
  clipScaleRows clip_ratio (lb.zip ub) ns

/-- The `for i, agent in enumerate(agents)` loop of `EP.update` (ep.py lines
163-171): for each agent, a child is produced by `_mutate_parent` with
strategy slice `strategy[i]`, then `strategy[i]` is replaced by
`_update_strategy(strategy[i], agent.lb, agent.ub)`, and the child is appended.
`gm i` and `gs i` are the oracle values of the Gaussian draws consumed at index
`i`. Returns the children and the final strategy array. -/
def EP.childrenLoop (f : Pos → ℚ) (clip_ratio : ℚ) (sqrtAbs : ℚ → ℚ)
    (gm : ℕ → ℚ) (gs : ℕ → Mat) : ℕ → List Agent → List Mat → List Agent × List Mat
  | _, [], strat => ([], strat)
  | i, agent :: rest, strat =>
    let child := EP.mutate_parent f agent (strat.getD i []) (gm i)
    let strat2 := strat.set i
      (EP.update_strategy clip_ratio sqrtAbs (strat.getD i []) agent.lb agent.ub (gs i))
    let r := EP.childrenLoop f clip_ratio sqrtAbs gm gs (i + 1) rest strat2
    (child :: r.1, r.2)

/-- Python `int(x)` applied to a float: truncation toward zero (ep.py line 177
computes `n_individuals = int(n_agents * self.bout_size)`). -/
def pyInt (x : ℚ) : ℤ := if 0 ≤ x then ⌊x⌋ else ⌈x⌉

/-- Number of tournament rounds per pool member (ep.py line 177), as a loop
count: `range` of a negative int is empty, whence `toNat`. -/
def EP.nIndividuals (n_agents : ℕ) (bout_size : ℚ) : ℕ :=
  (pyInt ((n_agents : ℚ) * bout_size)).toNat

/-- Win count of pool member `i` (ep.py lines 183-192): over `nInd` tournament
rounds, an opponent index is drawn by `r.generate_integer_random_number(0,
len(agents))` — modelled from the spec as the oracle draw `ri i k` reduced
modulo the pool size, the missing `opytimizer/math/random.py` guaranteeing a
uniform draw in `[0, len)` — and a win is counted exactly when the member's
fitness is strictly below the opponent's. -/
def EP.winsOf (pool : List Agent) (ri : ℕ → ℕ → ℕ) (nInd : ℕ) (i : ℕ) (a : Agent) : ℕ :=
  ((List.range nInd).filter
    (fun k => decide (a.fit < (pool.getD (ri i k % pool.length) defaultAgent).fit))).length

/-- Stable insertion into a list sorted descending by the win count: the new
pair passes the strictly greater keys and lands before the first key less than
or equal to its own, so pairs with equal keys keep their original order — the
tie behavior of Python's stable `sorted(..., reverse=True)` (ep.py lines
195-196). -/
def insertPairDesc (p : ℕ × Agent) : List (ℕ × Agent) → List (ℕ × Agent)
  | [] => [p]
  | q :: rest => if p.1 < q.1 then q :: insertPairDesc p rest else p :: q :: rest

/-- Stable sort of the win-count/agent pairs, descending by win count. -/
def sortPairsDesc : List (ℕ × Agent) → List (ℕ × Agent)
  | [] => []
  | p :: rest => insertPairDesc p (sortPairsDesc rest)

/-- Everything observable of one `EP.update` call (ep.py lines 145-198):
`argAgents` is the final state of the caller's `agents` list object — the line
`agents += children` extends it in place, the later `agents = [...]` only
rebinds the local name — `strategy` is the final state of the strategy array,
and `ret` is the returned next generation `agents[:n_agents]`. -/
structure UpdateResult where
  argAgents : List Agent
  strategy : List Mat
  ret : List Agent

/-- `EP.update(agents, n_agents, function, strategy)` (ep.py lines 145-198).
The oracles `gm`, `gs`, `ri` supply the random draws; `bout_size` and
`clip_ratio` are the instance hyperparameters. -/
def EP.update (bout_size clip_ratio : ℚ) (sqrtAbs : ℚ → ℚ) (gm : ℕ → ℚ)
    (gs : ℕ → Mat) (ri : ℕ → ℕ → ℕ) (agents : List Agent) (n_agents : ℕ)
    (f : Pos → ℚ) (strategy : List Mat) : UpdateResult :=
  let cl := EP.childrenLoop f clip_ratio sqrtAbs gm gs 0 agents strategy
  let pool := agents ++ cl.1
  let nInd := EP.nIndividuals n_agents bout_size
  let paired := pool.enum.map (fun p => (EP.winsOf pool ri nInd p.1 p.2, p.2))
  { argAgents := pool, strategy := cl.2,
    ret := ((sortPairsDesc paired).map Prod.snd).take n_agents }

lemma childrenLoop_fst_length (f : Pos → ℚ) (cr : ℚ) (sA : ℚ → ℚ) (gm : ℕ → ℚ)
    (gs : ℕ → Mat) :
    ∀ (ags : List Agent) (i : ℕ) (strat : List Mat),
      (EP.childrenLoop f cr sA gm gs i ags strat).1.length = ags.length
  | [], _, _ => rfl
  | _ :: rest, i, strat => by
    simp only [EP.childrenLoop, List.length_cons]
    rw [childrenLoop_fst_length f cr sA gm gs rest]

lemma insertPairDesc_perm (p : ℕ × Agent) :
    ∀ l, (insertPairDesc p l).Perm (p :: l)
  | [] => List.Perm.refl _
  | q :: rest => by
    unfold insertPairDesc
    by_cases h : p.1 < q.1
    · rw [if_pos h]
      exact List.Perm.trans (List.Perm.cons q (insertPairDesc_perm p rest))
        (List.Perm.swap p q rest)
    · rw [if_neg h]

lemma sortPairsDesc_perm : ∀ l, (sortPairsDesc l).Perm l
  | [] => List.Perm.refl _
  | p :: rest => by
    unfold sortPairsDesc
    exact List.Perm.trans (insertPairDesc_perm p _)
      (List.Perm.cons p (sortPairsDesc_perm rest))

lemma insertPairDesc_pairwise (p : ℕ × Agent) :
    ∀ l, l.Pairwise (fun x y : ℕ × Agent => y.1 ≤ x.1) →
      (insertPairDesc p l).Pairwise (fun x y : ℕ × Agent => y.1 ≤ x.1)
  | [] => fun _ => List.pairwise_singleton _ p
  | q :: rest => by
    intro h
    rw [List.pairwise_cons] at h
    unfold insertPairDesc
    by_cases hpq : p.1 < q.1
    · rw [if_pos hpq]
      rw [List.pairwise_cons]
      constructor
      · intro y hy
        rcases (insertPairDesc_perm p rest).mem_iff.mp hy with hy2
        rcases List.mem_cons.mp hy2 with rfl | hy3
        · exact le_of_lt hpq
        · exact h.1 y hy3
      · exact insertPairDesc_pairwise p rest h.2
    · rw [if_neg hpq]
      push_neg at hpq
      rw [List.pairwise_cons]
      constructor
      · intro y hy
        rcases List.mem_cons.mp hy with rfl | hy2
        · exact hpq
        · exact le_trans (h.1 y hy2) hpq
      · exact List.pairwise_cons.mpr h

lemma sortPairsDesc_pairwise :
    ∀ l, (sortPairsDesc l).Pairwise (fun x y : ℕ × Agent => y.1 ≤ x.1)
  | [] => List.Pairwise.nil
  | p :: rest => insertPairDesc_pairwise p _ (sortPairsDesc_pairwise rest)

/-- A concrete one-variable, one-dimension agent for the concrete
instantiations. -/
def wAgent : Agent := ⟨[[2]], [-10], [10], 5, 0⟩

lemma update_argAgents_length (bout_size clip_ratio : ℚ)
    (sqrtAbs : ℚ → ℚ) (gm : ℕ → ℚ) (gs : ℕ → Mat) (ri : ℕ → ℕ → ℕ)
    (agents : List Agent) (n_agents : ℕ) (f : Pos → ℚ) (strategy : List Mat)
    (hlen : agents.length = n_agents) :
    (EP.update bout_size clip_ratio sqrtAbs gm gs ri agents n_agents f strategy).argAgents.length
        = 2 * n_agents := by
  simp only [EP.update, List.length_append,
    childrenLoop_fst_length f clip_ratio sqrtAbs gm gs agents 0 strategy, hlen]
  omega

lemma update_ret_length (bout_size clip_ratio : ℚ)
    (sqrtAbs : ℚ → ℚ) (gm : ℕ → ℚ) (gs : ℕ → Mat) (ri : ℕ → ℕ → ℕ)
    (agents : List Agent) (n_agents : ℕ) (f : Pos → ℚ) (strategy : List Mat)
    (hlen : agents.length = n_agents) :
    (EP.update bout_size clip_ratio sqrtAbs gm gs ri agents n_agents f strategy).ret.length
        = n_agents := by
  have hpool := update_argAgents_length bout_size clip_ratio sqrtAbs gm gs ri
    agents n_agents f strategy hlen
  simp only [EP.update] at hpool ⊢
  rw [List.length_take, List.length_map,
    (sortPairsDesc_perm _).length_eq, List.length_map, List.enum_length, hpool]
  omega

/-- Claim C3: on a population of length `n_agents ≥ 1`, `EP.update` returns
exactly `n_agents` agents, although the internal pool — parents plus one child
per parent — has grown to `2 × n_agents` by selection time. -/
theorem C3_update_returns_exactly_n_agents (bout_size clip_ratio : ℚ)
    (sqrtAbs : ℚ → ℚ) (gm : ℕ → ℚ) (gs : ℕ → Mat) (ri : ℕ → ℕ → ℕ)
    (agents : List Agent) (n_agents : ℕ) (f : Pos → ℚ) (strategy : List Mat)
    (hlen : agents.length = n_agents) (_hpos : 1 ≤ n_agents) :
    (EP.update bout_size clip_ratio sqrtAbs gm gs ri agents n_agents f strategy).ret.length
        = n_agents ∧
    (EP.update bout_size clip_ratio sqrtAbs gm gs ri agents n_agents f strategy).argAgents.length
        = 2 * n_agents :=
  ⟨update_ret_length bout_size clip_ratio sqrtAbs gm gs ri agents n_agents f strategy hlen,
    update_argAgents_length bout_size clip_ratio sqrtAbs gm gs ri agents n_agents f strategy hlen⟩

/-- Witness for C3 at a concrete one-agent population. -/
theorem C3_update_returns_exactly_n_agents_witness :
    ([wAgent].length = 1 ∧ 1 ≤ 1) ∧
    (EP.update 1 1 id (fun _ => 0) (fun _ => [[0]]) (fun _ _ => 0) [wAgent] 1
      (fun _ => 0) [[[1]]]).ret.length = 1 :=
  ⟨⟨rfl, le_refl 1⟩,
    (C3_update_returns_exactly_n_agents 1 1 id (fun _ => 0) (fun _ => [[0]])
      (fun _ _ => 0) [wAgent] 1 (fun _ => 0) [[[1]]] rfl (le_refl 1)).1⟩

/-- Claim C10: `EP.update` mutates its `agents` list argument in place — the
statement `agents += children` extends the caller's list object — so after the
call that object holds the untouched parents followed by the children, twice
its original length, while the returned list still has `n_agents` entries. -/
theorem C10_update_extends_caller_list (bout_size clip_ratio : ℚ)
    (sqrtAbs : ℚ → ℚ) (gm : ℕ → ℚ) (gs : ℕ → Mat) (ri : ℕ → ℕ → ℕ)
    (agents : List Agent) (n_agents : ℕ) (f : Pos → ℚ) (strategy : List Mat)
    (hlen : agents.length = n_agents) :
    (EP.update bout_size clip_ratio sqrtAbs gm gs ri agents n_agents f strategy).argAgents.length
        = 2 * agents.length ∧
    (EP.update bout_size clip_ratio sqrtAbs gm gs ri agents n_agents f
        strategy).argAgents.take agents.length = agents ∧
    (EP.update bout_size clip_ratio sqrtAbs gm gs ri agents n_agents f strategy).ret.length
        = n_agents := by
  have hcl := childrenLoop_fst_length f clip_ratio sqrtAbs gm gs agents 0 strategy
  refine ⟨?_, ?_, ?_⟩
  · simp only [EP.update, List.length_append, hcl]
    omega
  · simp only [EP.update]
    exact List.take_left agents _
  · simp only [EP.update]
    rw [List.length_take, List.length_map,
      (sortPairsDesc_perm _).length_eq, List.length_map, List.enum_length,
      List.length_append, hcl, hlen]
    omega

/-- Witness for C10 at a concrete one-agent population. -/
theorem C10_update_extends_caller_list_witness :
    ([wAgent].length = 1) ∧
    (EP.update 1 1 id (fun _ => 0) (fun _ => [[0]]) (fun _ _ => 0) [wAgent] 1
      (fun _ => 0) [[[1]]]).argAgents.length = 2 * [wAgent].length :=
  ⟨rfl,
    (C10_update_extends_caller_list 1 1 id (fun _ => 0) (fun _ => [[0]])
      (fun _ _ => 0) [wAgent] 1 (fun _ => 0) [[[1]]] rfl).1⟩

lemma nIndividuals_eq_floor (n_agents : ℕ) (bout_size : ℚ) (hb : 0 ≤ bout_size) :
    EP.nIndividuals n_agents bout_size = (⌊(n_agents : ℚ) * bout_size⌋).toNat := by
  unfold EP.nIndividuals pyInt
  rw [if_pos (mul_nonneg (Nat.cast_nonneg n_agents) hb)]

/-- Claim C4: tournament selection. With a valid (nonnegative) `bout_size`,
the number of rounds is `⌊n_agents × bout_size⌋`; every opponent draw is an
index into the `2 × n_agents` pool (the spec-modelled sampler guarantees the
range); each pool member's win count counts exactly the rounds whose opponent
has strictly greater fitness; and the returned generation is the first
`n_agents` entries of a permutation of the win-count/pool pairing that is
sorted descending by win count. -/
theorem C4_tournament_selection (bout_size clip_ratio : ℚ)
    (sqrtAbs : ℚ → ℚ) (gm : ℕ → ℚ) (gs : ℕ → Mat) (ri : ℕ → ℕ → ℕ)
    (agents : List Agent) (n_agents : ℕ) (f : Pos → ℚ) (strategy : List Mat)
    (hlen : agents.length = n_agents) (hpos : 1 ≤ n_agents) (hb : 0 ≤ bout_size) :
    EP.nIndividuals n_agents bout_size = (⌊(n_agents : ℚ) * bout_size⌋).toNat ∧
    (EP.update bout_size clip_ratio sqrtAbs gm gs ri agents n_agents f strategy).argAgents.length
        = 2 * n_agents ∧
    (∀ i k, ri i k %
        (EP.update bout_size clip_ratio sqrtAbs gm gs ri agents n_agents f
          strategy).argAgents.length <
        (EP.update bout_size clip_ratio sqrtAbs gm gs ri agents n_agents f
          strategy).argAgents.length) ∧
    ∃ sortedPool : List (ℕ × Agent),
      sortedPool.Perm
        ((EP.update bout_size clip_ratio sqrtAbs gm gs ri agents n_agents f
            strategy).argAgents.enum.map
          (fun p => (EP.winsOf
            (EP.update bout_size clip_ratio sqrtAbs gm gs ri agents n_agents f
              strategy).argAgents ri (EP.nIndividuals n_agents bout_size) p.1 p.2, p.2))) ∧
      sortedPool.Pairwise (fun x y : ℕ × Agent => y.1 ≤ x.1) ∧
      (EP.update bout_size clip_ratio sqrtAbs gm gs ri agents n_agents f strategy).ret
        = (sortedPool.map Prod.snd).take n_agents := by
  have hpool :
      (EP.update bout_size clip_ratio sqrtAbs gm gs ri agents n_agents f strategy).argAgents.length
        = 2 * n_agents :=
    update_argAgents_length bout_size clip_ratio sqrtAbs gm gs ri agents
      n_agents f strategy hlen
  refine ⟨nIndividuals_eq_floor n_agents bout_size hb, hpool, ?_, ?_⟩
  · intro i k
    exact Nat.mod_lt _ (by omega)
  · exact ⟨sortPairsDesc _, sortPairsDesc_perm _, sortPairsDesc_pairwise _, rfl⟩

/-- Witness for C4 at a concrete one-agent population with `bout_size = 1`. -/
theorem C4_tournament_selection_witness :
    ([wAgent].length = 1 ∧ 1 ≤ 1 ∧ (0 : ℚ) ≤ 1) ∧
    EP.nIndividuals 1 1 = (⌊(1 : ℚ) * 1⌋).toNat :=
  ⟨⟨rfl, le_refl 1, by norm_num⟩,
    (C4_tournament_selection 1 1 id (fun _ => 0) (fun _ => [[0]])
      (fun _ _ => 0) [wAgent] 1 (fun _ => 0) [[[1]]] rfl (le_refl 1) (by norm_num)).1⟩

lemma getD_zipWith {α β γ : Type} (f : α → β → γ) (dc : γ) (da : α) (db : β) :
    ∀ (l1 : List α) (l2 : List β) (j : ℕ), j < l1.length → j < l2.length →
      (List.zipWith f l1 l2).getD j dc = f (l1.getD j da) (l2.getD j db) := by
  intro l1
  induction l1 with
  | nil => intro l2 j h1 _; exact absurd h1 (by simp)
  | cons x xs ih =>
    intro l2 j h1 h2
    cases l2 with
    | nil => exact absurd h2 (by simp)
    | cons y ys =>
      cases j with
      | zero => rfl
      | succ n =>
        simp only [List.zipWith_cons_cons, List.getD_cons_succ]
        exact ih ys n (Nat.lt_of_succ_lt_succ h1) (Nat.lt_of_succ_lt_succ h2)

lemma getD_map {α β : Type} (f : α → β) (db : β) (da : α) :
    ∀ (l : List α) (j : ℕ), j < l.length → (l.map f).getD j db = f (l.getD j da) := by
  intro l
  induction l with
  | nil => intro j h; exact absurd h (by simp)
  | cons x xs ih =>
    intro j h
    cases j with
    | zero => rfl
    | succ n =>
      simp only [List.map_cons, List.getD_cons_succ]
      exact ih n (Nat.lt_of_succ_lt_succ h)

/-- Claim C7, amended: for every parent, `_mutate_parent` returns a child whose
position is the parent's position plus the strategy matrix multiplied
elementwise by ONE scalar Gaussian draw shared across all elements (not an
independent draw per element), clipped to the bounds, with the fitness
recomputed on the new position; bounds and timestamp are carried over from the
parent, and the parent value itself is untouched (the code mutates only the
deep copy, which the embedding renders as pure construction). -/
theorem C7_mutation_uses_single_scalar_draw (f : Pos → ℚ) (agent : Agent)
    (strategy : Mat) (r1 : ℚ)
    (hshape : strategy.map List.length = agent.position.map List.length)
    (hlb : agent.lb.length = agent.position.length)
    (hub : agent.ub.length = agent.position.length) :
    (∀ j, j < agent.position.length → ∀ d, d < (agent.position.getD j []).length →
      ((EP.mutate_parent f agent strategy r1).position.getD j []).getD d 0 =
        clipScalar (agent.lb.getD j 0) (agent.ub.getD j 0)
          ((agent.position.getD j []).getD d 0 + (strategy.getD j []).getD d 0 * r1)) ∧
    (EP.mutate_parent f agent strategy r1).fit =
      f (EP.mutate_parent f agent strategy r1).position ∧
    (EP.mutate_parent f agent strategy r1).lb = agent.lb ∧
    (EP.mutate_parent f agent strategy r1).ub = agent.ub ∧
    (EP.mutate_parent f agent strategy r1).ts = agent.ts := by
  have hslen : strategy.length = agent.position.length := by
    have := congrArg List.length hshape
    simpa using this
  refine ⟨?_, rfl, rfl, rfl, rfl⟩
  intro j hj d hd
  have hjs : j < strategy.length := by omega
  have hrowlen : (strategy.getD j []).length = (agent.position.getD j []).length := by
    have h1 : (strategy.map List.length).getD j 0 = (strategy.getD j []).length :=
      getD_map List.length 0 [] strategy j hjs
    have h2 : (agent.position.map List.length).getD j 0 =
        (agent.position.getD j []).length :=
      getD_map List.length 0 [] agent.position j hj
    rw [hshape] at h1
    rw [h2] at h1
    exact h1.symm
  simp only [EP.mutate_parent, Agent.clip_by_bound]
  have hzlen : j < (agent.lb.zip agent.ub).length := by
    rw [List.length_zip]
    omega
  have hmlen : j < (List.zipWith
      (fun row srow => List.zipWith (fun p s => p + s * r1) row srow)
      agent.position strategy).length := by
    rw [List.length_zipWith]
    omega
  rw [getD_zipWith (fun (p : ℚ × ℚ) (row : List ℚ) => row.map (clipScalar p.1 p.2))
    [] ((0 : ℚ), (0 : ℚ)) [] (agent.lb.zip agent.ub) _ j hzlen hmlen]
  rw [getD_zipWith (fun (row srow : List ℚ) => List.zipWith (fun p s => p + s * r1) row srow)
    [] [] [] agent.position strategy j hj hjs]
  have hzget : (agent.lb.zip agent.ub).getD j ((0 : ℚ), (0 : ℚ)) =
      (agent.lb.getD j 0, agent.ub.getD j 0) := by
    rw [List.zip]
    exact getD_zipWith Prod.mk ((0 : ℚ), (0 : ℚ)) 0 0 agent.lb agent.ub j
      (by omega) (by omega)
  rw [hzget]
  have hdm : d < (List.zipWith (fun p s => p + s * r1) (agent.position.getD j [])
      (strategy.getD j [])).length := by
    rw [List.length_zipWith]
    omega
  rw [getD_map (clipScalar (agent.lb.getD j 0) (agent.ub.getD j 0)) 0 0 _ d hdm]
  rw [getD_zipWith (fun p s => p + s * r1) 0 0 0 (agent.position.getD j [])
    (strategy.getD j []) d hd (by omega)]

/-- A concrete two-variable agent: both coordinates zero, bounds `[-10, 10]`. -/
def cAgent : Agent := ⟨[[0], [0]], [-10, -10], [10, 10], 0, 0⟩

/-- The oracle Gaussian stream `1, 2, 3, …`: successive draws differ, which is
what tells one shared draw apart from independent per-element draws. -/
def cStream : ℕ → ℚ := fun n => (n : ℚ) + 1

/-- Claim C7 counterexample: with strategy `[[1], [1]]` on the two-variable
zero agent and the Gaussian stream `1, 2, …`, the code multiplies the whole
strategy by the single first draw and moves BOTH coordinates by `1`, whereas
"an independent Gaussian(0,1) draw per element" would consume the stream's
first two draws and move the coordinates by `1` and `2` respectively; the
code's child position differs from the per-element prediction. -/
theorem C7_counterexample_single_draw_not_per_element :
    (EP.mutate_parent (fun _ => 0) cAgent [[1], [1]] (cStream 0)).position
        = [[1], [1]] ∧
    ([[(1 : ℚ)], [1]] : Pos) ≠
      [[clipScalar (-10) 10 (0 + 1 * cStream 0)],
       [clipScalar (-10) 10 (0 + 1 * cStream 1)]] := by
  constructor
  · simp only [EP.mutate_parent, Agent.clip_by_bound, cAgent, cStream, clipScalar,
      List.zip, List.zipWith_cons_cons, List.zipWith_nil_right, List.map_cons,
      List.map_nil]
    norm_num
  · simp only [cStream, clipScalar]
    norm_num

/-- Witness for C7's amended theorem at the concrete two-variable agent. -/
theorem C7_mutation_uses_single_scalar_draw_witness :
    (([[1], [1]] : Mat).map List.length = cAgent.position.map List.length ∧
      cAgent.lb.length = cAgent.position.length ∧
      cAgent.ub.length = cAgent.position.length) ∧
    (EP.mutate_parent (fun _ => 0) cAgent [[1], [1]] (cStream 0)).lb = cAgent.lb :=
  ⟨⟨rfl, rfl, rfl⟩,
    (C7_mutation_uses_single_scalar_draw (fun _ => 0) cAgent [[1], [1]] (cStream 0)
      rfl rfl rfl).2.2.1⟩

end Opytimizer
